import Mathlib

/-!
Verification of the metadata-normalization and file-correlation pipeline of
the sra-geo-toolkits repository (src/geo_processor.py, with the legacy
variant src/misc_version/geo_query_misc.py).

The pandas-based Python code is shallowly embedded: a DataFrame becomes an
explicit table of optional string cells, pandas missing values (NaN) become
`Option.none`, raised ValueError exceptions become `Except.error`, and the
filesystem and the per-dataset pipeline (network download, file copy) become
explicit parameters, since they are external collaborators of the core logic.
-/

namespace GeoToolkit

/-- A cell of a metadata table: `none` models a pandas missing value (NaN),
`some s` a present string value. An empty string is a present value,
distinct from a missing one, exactly as in pandas. -/
abbrev Cell := Option String

/-- Models pandas `pd.notna` on one cell: `False` exactly on a missing value.
Note that `pd.notna("")` is `True`: an empty string is not NA. -/
def notna : Cell → Bool
  | none => false
  | some _ => true

/-- Models how Python renders a cell value when it is used as a string
(for example inside an f-string): a pandas NaN prints as `nan`. -/
def cellStr : Cell → String
  | none => "nan"
  | some s => s

/-- Models a pandas DataFrame as produced by `gse.phenotype_data`: an ordered
list of column names, and rows given as (index label, cells), where the cells
are aligned positionally with `columns`. The index label is the sample
accession that pandas keeps as the row index. -/
structure DataFrame where
  columns : List String
  rows : List (String × List Cell)
deriving DecidableEq

/-- Models `row[c]` on a pandas row Series: the cell stored at the first
column labelled `c`, or `none` when the label is absent from the row
(Python raises a KeyError in that case). Also decides `c in row`. -/
def rowGet (cols : List String) (cells : List Cell) (c : String) : Option Cell :=
  (cols.zip cells).lookup c

/-- The value of a row at a column that is known to exist: the stored cell,
read as `none` (missing) when the lookup fails. -/
def rowVal (cols : List String) (cells : List Cell) (c : String) : Cell :=
  ((cols.zip cells).lookup c).getD none

/-- The result of `extract_metadata` (geo_processor.py lines 151-163): the
requested columns that were found, the requested columns that were missing,
and the resulting table. -/
structure SelectResult where
  found : List String
  missing : List String
  table : DataFrame
deriving DecidableEq

/-- Models `metadata_df[available_cols]`: projection of the table onto the
given columns, keeping every row and its index label. -/
def DataFrame.project (df : DataFrame) (cols : List String) : DataFrame :=
  ⟨cols, df.rows.map fun r => (r.1, cols.map fun c => rowVal df.columns r.2 c)⟩

/-- Models the column-selection logic of `extract_metadata` (geo_processor.py
lines 151-163): `available_cols` and `missing_cols` are computed by
membership filters over the requested list; the table is projected onto
`available_cols` when that list is non-empty and is left unchanged otherwise
(only a warning is logged). Passing an empty requested list models both
`selected_columns=None` and `selected_columns=[]`, which Python treats alike
(`if selected_columns:`), and leaves the table unchanged. -/
def extract_metadata (df : DataFrame) (selected : List String) : SelectResult :=
  let available := selected.filter fun c => df.columns.contains c
  let missing := selected.filter fun c => !df.columns.contains c
  if available = [] then ⟨available, missing, df⟩
  else ⟨available, missing, df.project available⟩

/-- The payload of the ValueError raised for an absent user-supplied column.
`availableCols = some cols` models a message that lists the available
columns, as in `filter_samples_by_criteria` (geo_processor.py line 193,
"... Available columns: ..."); `availableCols = none` models a message that
does not, as in `get_unique_values` (geo_processor.py line 227). -/
structure ColumnNotFound where
  column : String
  availableCols : Option (List String)
deriving DecidableEq

/-- Models `filter_samples_by_criteria` (geo_processor.py lines 172-210).
`reSearch cs pat v` abstracts the pandas/Python regex engine behind
`Series.str.contains(pat, regex=True)`: whether the regex `pat` finds a
match anywhere in `v`, matching case-insensitively when `cs` is false
(the `case=False` flag). `na=False` makes a missing cell never match, which
is the `none => false` arm. When the filter column is absent the function
raises a ValueError whose message lists the available columns. -/
def filter_samples_by_criteria (reSearch : Bool → String → String → Bool)
    (df : DataFrame) (filterColumn : String) (filterPattern : String)
    (caseSensitive : Bool := false) : Except ColumnNotFound DataFrame :=
  if df.columns.contains filterColumn then
    .ok ⟨df.columns, df.rows.filter fun r =>
      match rowVal df.columns r.2 filterColumn with
      | some v => reSearch caseSensitive filterPattern v
      | none => false⟩
  else
    .error ⟨filterColumn, some df.columns⟩

/-- The present (non-NA) values of one column, in row order: the values that
`metadata_df[column]` contributes to `value_counts()`, which drops NaN. -/
def presentValues (df : DataFrame) (column : String) : List String :=
  df.rows.filterMap fun r => rowVal df.columns r.2 column

/-- The distinct elements of a list in first-encountered order, as pandas
enumerates the unique values of a column. -/
def firstUniques : List String → List String
  | [] => []
  | v :: vs => v :: firstUniques (vs.filter fun w => w != v)
termination_by l => l.length
decreasing_by
  simp only [List.length_cons]
  exact Nat.lt_succ_of_le (List.length_filter_le _ vs)

/-- Each distinct value of the list paired with its number of occurrences,
distinct values in first-encountered order. -/
def countPairs (vs : List String) : List (String × Nat) :=
  (firstUniques vs).map fun v => (v, vs.count v)

/-- Models `Series.value_counts()`: the occurrence count of every distinct
present value, sorted by descending count with a stable sort, so that values
with equal counts stay in first-encountered order; NaN values were already
dropped by `presentValues`. -/
def value_counts (vs : List String) : List (String × Nat) :=
  (countPairs vs).mergeSort fun a b => decide (b.2 ≤ a.2)

/-- Models `get_unique_values` (geo_processor.py lines 212-234): the value
distribution `metadata_df[column].value_counts()` of an existing column, or
a ValueError whose message does not list the available columns
(line 227: only the missing column name appears in the message). -/
def get_unique_values (df : DataFrame) (column : String) :
    Except ColumnNotFound (List (String × Nat)) :=
  if df.columns.contains column then
    .ok (value_counts (presentValues df column))
  else
    .error ⟨column, none⟩

/-- Models the Python substring test `pat in s` on strings. -/
def containsSubstr (s pat : String) : Bool :=
  decide (pat.data <:+: s.data)

/-- Models Python single-character `str.replace(old, new)`: every occurrence
of the character `old` becomes `new`. -/
def pyReplaceChar (s : String) (old new : Char) : String :=
  ⟨s.data.map fun c => if c = old then new else c⟩

/-- Models the sanitization applied to a present identifier value
(geo_processor.py line 312): `.replace(' ', '_').replace('/', '_')`. -/
def sanitizeIdentifier (s : String) : String :=
  pyReplaceChar (pyReplaceChar s ' ' '_') '/' '_'

/-- Models Python `url.split('/')[-1]`: the final path segment of a URL. -/
def lastPathSegment (url : String) : String :=
  ⟨(url.data.splitOn '/').getLastD []⟩

/-- The identifier used to rename the files of one row (geo_processor.py
lines 310-314): when the identifier column is a label of the row and its
value is non-NA, that value sanitized; otherwise whatever was read from the
`geo_accession` column (rendered through `cellStr`, since a NaN accession
would print as `nan` inside the f-string). -/
def identifierFor (cols : List String) (cells : List Cell)
    (identifierColumn : String) (geoAcc : Cell) : String :=
  match rowGet cols cells identifierColumn with
  | some (some v) => sanitizeIdentifier v
  | _ => cellStr geoAcc

/-- Models the scan for the supplementary-file URL of a row (geo_processor.py
lines 316-321): the value of the first column, in the row's column order,
whose name contains the substring `supplementary_file` and whose value is
non-NA; `none` when no column qualifies. -/
def findSuppUrl (cols : List String) (cells : List Cell) : Option String :=
  (cols.zip cells).findSome? fun p =>
    if containsSubstr p.1 "supplementary_file" && notna p.2 then p.2 else none

/-- Models one iteration of the rename loop of `rename_supplementary_files`
(the body of the per-row try, geo_processor.py lines 307-344), and returns
the mapping entry (originalFilename, newFilename) it records, or `none` when
the row records nothing: a missing `geo_accession` label (a KeyError caught
by the per-row except), no qualifying supplementary-file column, a falsy
(empty) URL, an original file absent from `sourceFiles` (the names present
in `source_dir`), or a copy failure (an exception of `shutil.copy2`, caught
by the per-row except; `copyOk old new` abstracts its success). -/
def rowOutcome (sourceFiles : List String) (copyOk : String → String → Bool)
    (cols : List String) (identifierColumn : String) (cells : List Cell) :
    Option (String × String) := do
  let geoAcc ← rowGet cols cells "geo_accession"
  let identifier := identifierFor cols cells identifierColumn geoAcc
  let url ← findSuppUrl cols cells
  if url = "" then none
  else
    let originalFilename := lastPathSegment url
    if sourceFiles.contains originalFilename then
      let newFilename := identifier ++ "-" ++ originalFilename
      if copyOk originalFilename newFilename then
        some (originalFilename, newFilename)
      else none
    else none

/-- Insertion into an insertion-ordered association list with Python dict
assignment semantics: an existing key keeps its position and receives the
new value, a new key is appended at the end. -/
def upsert {β : Type} : List (String × β) → String → β → List (String × β)
  | [], k, v => [(k, v)]
  | (k₀, v₀) :: rest, k, v =>
    if k₀ = k then (k, v) :: rest else (k₀, v₀) :: upsert rest k v

/-- Models `rename_supplementary_files` (geo_processor.py lines 279-347):
iterates over the rows of the table and accumulates the dict
`renamed_files`, one `original -> new` entry per row whose copy succeeded.
The copies themselves are side effects abstracted by `copyOk`. -/
def rename_supplementary_files (sourceFiles : List String)
    (copyOk : String → String → Bool) (df : DataFrame)
    (identifierColumn : String := "source_name_ch1") : List (String × String) :=
  df.rows.foldl (fun renamedFiles r =>
    match rowOutcome sourceFiles copyOk df.columns identifierColumn r.2 with
    | some entry => upsert renamedFiles entry.1 entry.2
    | none => renamedFiles) []

/-- The per-dataset outcome stored in the batch results dict: the code stores
`{status: "success", ...payload...}` or `{status: "error", error: msg}`;
the payload (gse object, metadata, summary, output directory) is abstracted
into one value of type `α`. -/
inductive BatchResult (α : Type) where
  | success (data : α)
  | error (message : String)
deriving DecidableEq

/-- Whether a batch entry has status `success`, as tested by the final tally
(geo_processor.py line 512). -/
def BatchResult.isSuccess {α : Type} : BatchResult α → Bool
  | .success _ => true
  | .error _ => false

/-- The entry recorded for one dataset from the outcome of its pipeline. -/
def mkBatchResult {α : Type} : Except String α → BatchResult α
  | .ok d => .success d
  | .error e => .error e

/-- Models the loop of `process_multiple_datasets` (geo_processor.py lines
446-509). `pipeline i gseId` abstracts the whole per-dataset try block at
loop position `i` (download, metadata extraction, filtering, summary,
annotation): `Except.error e` models any exception raised inside it, which
the except clause converts into an error entry. The oracle is indexed by the
loop position because each iteration performs fresh network and filesystem
effects, so a repeated id may give a different outcome on a later pass. -/
def runBatch {α : Type} (pipeline : Nat → String → Except String α) :
    Nat → List (String × BatchResult α) → List String →
    List (String × BatchResult α)
  | _, results, [] => results
  | i, results, gseId :: rest =>
    runBatch pipeline (i + 1) (upsert results gseId (mkBatchResult (pipeline i gseId))) rest

/-- Models `process_multiple_datasets` (geo_processor.py lines 421-522): the
results dict after processing every id of the list, in order, starting from
the empty dict. -/
def process_multiple_datasets {α : Type}
    (pipeline : Nat → String → Except String α) (gseIds : List String) :
    List (String × BatchResult α) :=
  runBatch pipeline 0 [] gseIds

/-- The success tally of the batch (geo_processor.py line 512): the number of
entries of the results dict whose status is success. -/
def successCount {α : Type} (results : List (String × BatchResult α)) : Nat :=
  (results.filter fun r => r.2.isSuccess).length

/-- The failure tally of the batch (geo_processor.py line 513):
`len(results) - successful`. -/
def failedCount {α : Type} (results : List (String × BatchResult α)) : Nat :=
  results.length - successCount results

/-- The position of the last occurrence of an element in a list, if any. -/
def lastOcc : List String → String → Option Nat
  | [], _ => none
  | v :: vs, gseId =>
    match lastOcc vs gseId with
    | some j => some (j + 1)
    | none => if v = gseId then some 0 else none

/-! ## Helper lemmas -/

theorem lookup_zip_map (g : String → Cell) :
    ∀ (cols : List String) (c : String), c ∈ cols →
      (cols.zip (cols.map g)).lookup c = some (g c) := by
  intro cols
  induction cols with
  | nil => intro c hc; cases hc
  | cons c₀ rest ih =>
    intro c hc
    by_cases h : c = c₀
    · subst h
      simp [List.lookup]
    · have hc2 : c ∈ rest := by
        rcases List.mem_cons.mp hc with h1 | h1
        · exact absurd h1 h
        · exact h1
      have hb : (c == c₀) = false := by
        simp [h]
      have hstep : ((c₀ :: rest).zip ((c₀ :: rest).map g)).lookup c
          = (rest.zip (rest.map g)).lookup c := by
        simp [List.lookup, List.zip, hb]
      rw [hstep]
      exact ih c hc2

theorem rowVal_project (g : String → Cell) (cols : List String) (c : String)
    (h : c ∈ cols) : rowVal cols (cols.map g) c = g c := by
  unfold rowVal
  rw [lookup_zip_map g cols c h]
  rfl

theorem extract_metadata_of_found_empty (df : DataFrame) (selected : List String)
    (h : selected.filter (fun c => df.columns.contains c) = []) :
    extract_metadata df selected
      = ⟨[], selected.filter (fun c => !df.columns.contains c), df⟩ := by
  simp only [extract_metadata]
  rw [h]
  simp

theorem extract_metadata_of_found_ne (df : DataFrame) (selected : List String)
    (h : selected.filter (fun c => df.columns.contains c) ≠ []) :
    extract_metadata df selected
      = ⟨selected.filter (fun c => df.columns.contains c),
         selected.filter (fun c => !df.columns.contains c),
         df.project (selected.filter (fun c => df.columns.contains c))⟩ := by
  simp only [extract_metadata]
  rw [if_neg h]

/-! ## Concrete tables used by witnesses and counterexamples -/

/-- The two-sample scenario table of the specification: GSM1 with a present
identifier value, GSM2 with a blank (empty-string) identifier value. -/
def dfSamples : DataFrame :=
  ⟨["title", "geo_accession", "source_name_ch1", "supplementary_file_1"],
   [("GSM1", [some "H3K4me3 ChIP", some "GSM1", some "liver tissue", some "http://x/a.txt.gz"]),
    ("GSM2", [some "Input control", some "GSM2", some "", some "http://x/b.txt.gz"])]⟩

/-- A small table with columns `a` and `b`. -/
def dfAB : DataFrame :=
  ⟨["a", "b"], [("r1", [some "x", some "y"])]⟩

/-- A concrete stand-in for the abstract regex matcher: plain substring
search, which is what the regex `H3K` amounts to. -/
def reSearchSub : Bool → String → String → Bool :=
  fun _ pat v => containsSubstr v pat

/-! ## C7: column selection -/

/-- C7: for every table and requested column list, `extract_metadata` reports
found = requested ∩ existing and missing = requested \ existing, both in
requested order; when found is empty the table is returned unchanged without
raising; when found is non-empty the result is the projection onto the found
columns, preserving the row count, every row label in order, and the value
of every found column in every row. -/
theorem extract_metadata_select_spec (df : DataFrame) (selected : List String) :
    (extract_metadata df selected).found
        = selected.filter (fun c => df.columns.contains c) ∧
    (extract_metadata df selected).missing
        = selected.filter (fun c => !df.columns.contains c) ∧
    (selected.filter (fun c => df.columns.contains c) = [] →
      (extract_metadata df selected).table = df) ∧
    (selected.filter (fun c => df.columns.contains c) ≠ [] →
      (extract_metadata df selected).table.columns
          = selected.filter (fun c => df.columns.contains c) ∧
      (extract_metadata df selected).table.rows.length = df.rows.length ∧
      (∀ i (hi : i < df.rows.length)
          (hi2 : i < (extract_metadata df selected).table.rows.length),
        ((extract_metadata df selected).table.rows.get ⟨i, hi2⟩).1
            = (df.rows.get ⟨i, hi⟩).1 ∧
        ∀ c ∈ selected.filter (fun c => df.columns.contains c),
          rowVal (extract_metadata df selected).table.columns
              ((extract_metadata df selected).table.rows.get ⟨i, hi2⟩).2 c
            = rowVal df.columns (df.rows.get ⟨i, hi⟩).2 c)) := by
  by_cases hav : selected.filter (fun c => df.columns.contains c) = []
  · rw [extract_metadata_of_found_empty df selected hav]
    exact ⟨hav.symm, rfl, fun _ => rfl, fun hne => absurd hav hne⟩
  · rw [extract_metadata_of_found_ne df selected hav]
    refine ⟨rfl, rfl, fun h => absurd h hav, fun _ => ?_⟩
    refine ⟨rfl, by simp [DataFrame.project], ?_⟩
    intro i hi hi2
    simp only [DataFrame.project, List.get_eq_getElem, List.getElem_map]
    exact ⟨trivial, fun c hc => rowVal_project _ _ c hc⟩

/-- Witness for C7: the missing-column scenario of the specification.
Requesting the absent column `nonexistent` reports found = [],
missing = [nonexistent], and leaves the table unchanged. -/
theorem extract_metadata_select_spec_witness :
    (extract_metadata dfAB ["nonexistent"]).found = [] ∧
    (extract_metadata dfAB ["nonexistent"]).missing = ["nonexistent"] ∧
    (extract_metadata dfAB ["nonexistent"]).table = dfAB := by
  obtain ⟨h1, h2, h3, _⟩ := extract_metadata_select_spec dfAB ["nonexistent"]
  exact ⟨by rw [h1]; decide, by rw [h2]; decide, h3 (by decide)⟩

/-! ## C6: row filtering -/

/-- C6: for every table whose columns include the filter column,
`filter_samples_by_criteria` succeeds (also when nothing matches) and
returns a table with the same columns whose rows are a sublist of the
original rows (original order preserved), and a row is kept exactly when its
value in the filter column is present and the matcher (the regex search,
case-insensitive when caseSensitive is false) accepts it; rows with an
absent value are never kept. -/
theorem filter_samples_match_spec (reSearch : Bool → String → String → Bool)
    (df : DataFrame) (col pat : String) (cs : Bool)
    (hcol : df.columns.contains col = true) :
    ∃ out, filter_samples_by_criteria reSearch df col pat cs = .ok out ∧
      out.columns = df.columns ∧
      out.rows.Sublist df.rows ∧
      (∀ r, r ∈ out.rows ↔ r ∈ df.rows ∧
        ∃ v, rowVal df.columns r.2 col = some v ∧ reSearch cs pat v = true) := by
  have hok : filter_samples_by_criteria reSearch df col pat cs
      = .ok ⟨df.columns, df.rows.filter fun r =>
          match rowVal df.columns r.2 col with
          | some v => reSearch cs pat v
          | none => false⟩ := by
    unfold filter_samples_by_criteria
    rw [if_pos hcol]
  refine ⟨_, hok, rfl, List.filter_sublist _, fun r => ?_⟩
  show r ∈ df.rows.filter _ ↔ _
  rw [List.mem_filter]
  refine and_congr_right fun _ => ?_
  cases h : rowVal df.columns r.2 col <;> simp [h]

/-- Witness for C6: on the specification scenario table, filtering the
`title` column with the pattern `H3K` keeps exactly the GSM1 row. -/
theorem filter_samples_match_spec_witness :
    ∃ out, filter_samples_by_criteria reSearchSub dfSamples "title" "H3K" false
        = .ok out ∧
      ("GSM1", [some "H3K4me3 ChIP", some "GSM1", some "liver tissue",
        some "http://x/a.txt.gz"]) ∈ out.rows ∧
      ("GSM2", [some "Input control", some "GSM2", some "",
        some "http://x/b.txt.gz"]) ∉ out.rows := by
  obtain ⟨out, hout, _, _, hmem⟩ :=
    filter_samples_match_spec reSearchSub dfSamples "title" "H3K" false (by decide)
  refine ⟨out, hout, ?_, ?_⟩
  · rw [hmem]
    refine ⟨by decide, "H3K4me3 ChIP", by decide, by decide⟩
  · rw [hmem]
    rintro ⟨-, v, hv, hmatch⟩
    have : v = "Input control" := by
      have := hv
      simp only [dfSamples, rowVal] at this
      cases this
      rfl
    subst this
    exact absurd hmatch (by decide)

/-! ## C8: error payloads for absent columns -/

/-- C8 counterexample: the claim says every ColumnNotFound error of both
`filter_samples_by_criteria` and `get_unique_values` lists the available
columns, but the error raised by `get_unique_values` (geo_processor.py line
227) carries no available-column list at all: on a table with columns
`a`, `b` it reports only the missing column name. -/
theorem column_error_availability_counterexample :
    get_unique_values dfAB "c" = .error ⟨"c", none⟩ ∧
    (⟨"c", none⟩ : ColumnNotFound).availableCols ≠ some dfAB.columns := by
  exact ⟨rfl, by decide⟩

/-- C8 amended: when the user-supplied column is absent,
`filter_samples_by_criteria` raises a ColumnNotFound error that lists the
available columns, while `get_unique_values` raises a ColumnNotFound error
that does not include the available-column list. -/
theorem column_error_availability (reSearch : Bool → String → String → Bool)
    (df : DataFrame) (col pat : String) (cs : Bool)
    (hcol : df.columns.contains col = false) :
    filter_samples_by_criteria reSearch df col pat cs
        = .error ⟨col, some df.columns⟩ ∧
    get_unique_values df col = .error ⟨col, none⟩ := by
  constructor
  · unfold filter_samples_by_criteria
    rw [if_neg (by simpa using hcol)]
  · unfold get_unique_values
    rw [if_neg (by simpa using hcol)]

/-- Witness for C8 (amended): on the table with columns `a`, `b` and the
absent column `c`, the filter error lists the available columns and the
distribution error does not. -/
theorem column_error_availability_witness :
    filter_samples_by_criteria reSearchSub dfAB "c" "x" false
        = .error ⟨"c", some ["a", "b"]⟩ ∧
    get_unique_values dfAB "c" = .error ⟨"c", none⟩ := by
  obtain ⟨h1, h2⟩ :=
    column_error_availability reSearchSub dfAB "c" "x" false (by decide)
  exact ⟨h1, h2⟩

/-! ## C3: locating the supplementary-file URL -/

/-- C3: the URL scan takes the value of the first column, in the row's column
order, whose name contains the substring `supplementary_file` and whose
value is present (first conjunct: any decomposition of the labelled row into
a prefix of non-qualifying columns followed by a qualifying one yields that
value), and a row with no qualifying column produces no rename entry and no
error (second conjunct: its outcome is `none`, which the rename loop skips). -/
theorem suppfile_first_match_spec (sourceFiles : List String)
    (copyOk : String → String → Bool) (cols : List String) (cells : List Cell)
    (idcol : String) :
    (∀ (l₁ : List (String × Cell)) (c : String) (v : String)
        (l₂ : List (String × Cell)),
      cols.zip cells = l₁ ++ (c, some v) :: l₂ →
      (∀ p ∈ l₁, (containsSubstr p.1 "supplementary_file" && notna p.2) = false) →
      containsSubstr c "supplementary_file" = true →
      findSuppUrl cols cells = some v) ∧
    ((∀ p ∈ cols.zip cells,
        (containsSubstr p.1 "supplementary_file" && notna p.2) = false) →
      rowOutcome sourceFiles copyOk cols idcol cells = none) := by
  constructor
  · intro l₁ c v l₂ hsplit hfail hc
    unfold findSuppUrl
    rw [hsplit, List.findSome?_append]
    have h1 : l₁.findSome? (fun p =>
        if containsSubstr p.1 "supplementary_file" && notna p.2
        then p.2 else none) = none := by
      rw [List.findSome?_eq_none_iff]
      intro p hp
      rw [hfail p hp]
      simp
    rw [h1]
    simp [List.findSome?_cons, hc, notna]
  · intro hall
    have hfind : findSuppUrl cols cells = none := by
      unfold findSuppUrl
      rw [List.findSome?_eq_none_iff]
      intro p hp
      rw [hall p hp]
      simp
    unfold rowOutcome
    cases hgeo : rowGet cols cells "geo_accession" <;>
      simp [hgeo, hfind]

/-- Witness for C3: on the GSM1 row of the scenario table the scan finds the
URL stored under `supplementary_file_1` (the leading columns do not
qualify), and a row whose columns never mention `supplementary_file`
produces no rename entry. -/
theorem suppfile_first_match_spec_witness :
    findSuppUrl ["title", "geo_accession", "source_name_ch1", "supplementary_file_1"]
        [some "H3K4me3 ChIP", some "GSM1", some "liver tissue", some "http://x/a.txt.gz"]
      = some "http://x/a.txt.gz" ∧
    rowOutcome ["a.txt.gz"] (fun _ _ => true) ["title", "geo_accession"]
        "source_name_ch1" [some "t", some "GSM1"] = none := by
  obtain ⟨h1, h2⟩ := suppfile_first_match_spec ["a.txt.gz"] (fun _ _ => true)
    ["title", "geo_accession", "source_name_ch1", "supplementary_file_1"]
    [some "H3K4me3 ChIP", some "GSM1", some "liver tissue", some "http://x/a.txt.gz"]
    "source_name_ch1"
  refine ⟨h1 [("title", some "H3K4me3 ChIP"), ("geo_accession", some "GSM1"),
      ("source_name_ch1", some "liver tissue")]
      "supplementary_file_1" "http://x/a.txt.gz" [] (by decide) (by decide) (by decide), ?_⟩
  obtain ⟨-, h4⟩ := suppfile_first_match_spec ["a.txt.gz"] (fun _ _ => true)
    ["title", "geo_accession"] [some "t", some "GSM1"] "source_name_ch1"
  exact h4 (by decide)

/-! ## C1: identifier fallback for absent identifier values -/

/-- A one-row table matching the GSM2 scenario of the claim: the identifier
column holds a blank (empty-string, hence present) value and a local copy of
`b.txt.gz` exists. -/
def dfGSM2blank : DataFrame :=
  ⟨["geo_accession", "source_name_ch1", "supplementary_file_1"],
   [("GSM2", [some "GSM2", some "", some "http://x/b.txt.gz"])]⟩

/-- C1 counterexample: the claim says a blank identifier value falls back to
the row key, producing `GSM2-b.txt.gz`; but `pd.notna("")` is true, so the
code sanitizes the empty string and produces the new filename `-b.txt.gz`,
not `GSM2-b.txt.gz`. Only a genuinely absent (NA) value or a missing column
triggers the fallback. -/
theorem rename_blank_identifier_counterexample :
    rename_supplementary_files ["b.txt.gz"] (fun _ _ => true) dfGSM2blank
        "source_name_ch1" = [("b.txt.gz", "-b.txt.gz")] ∧
    ("-b.txt.gz" : String) ≠ "GSM2-b.txt.gz" := by
  exact ⟨by decide, by decide⟩

/-- C1 amended: for every row whose identifier column is absent from the row
or holds a missing (NA) value, the rename loop uses the value of the row's
`geo_accession` field as the identifier: whenever such a row records a
rename entry, the new filename is the accession, a literal hyphen, and the
original filename. A present-but-blank value does not trigger the fallback. -/
theorem rename_identifier_fallback (sourceFiles : List String)
    (copyOk : String → String → Bool) (cols : List String) (cells : List Cell)
    (idcol acc o n : String)
    (hid : rowGet cols cells idcol = none ∨ rowGet cols cells idcol = some none)
    (hgeo : rowGet cols cells "geo_accession" = some (some acc))
    (hout : rowOutcome sourceFiles copyOk cols idcol cells = some (o, n)) :
    n = acc ++ "-" ++ o := by
  have hidf : identifierFor cols cells idcol (some acc) = acc := by
    rcases hid with h | h <;> simp [identifierFor, h, cellStr]
  unfold rowOutcome at hout
  rw [hgeo] at hout
  simp only [Option.bind_eq_bind, Option.some_bind] at hout
  rw [hidf] at hout
  cases hurl : findSuppUrl cols cells with
  | none => rw [hurl] at hout; cases hout
  | some url =>
    rw [hurl] at hout
    simp only [Option.some_bind] at hout
    by_cases hempty : url = ""
    · simp [hempty] at hout
    · simp only [hempty, if_false] at hout
      simp at hout
      obtain ⟨-, -, ho, hn⟩ := hout
      subst hn
      rw [ho]

/-- Witness for C1 (amended): the GSM2 row with an NA identifier value and
local file `b.txt.gz` records the entry with new filename `GSM2-b.txt.gz`,
which is the accession joined to the original name by a hyphen. -/
theorem rename_identifier_fallback_witness :
    ("GSM2-b.txt.gz" : String) = "GSM2" ++ "-" ++ "b.txt.gz" := by
  exact rename_identifier_fallback ["b.txt.gz"] (fun _ _ => true)
    ["geo_accession", "source_name_ch1", "supplementary_file_1"]
    [some "GSM2", none, some "http://x/b.txt.gz"]
    "source_name_ch1" "GSM2" "b.txt.gz" "GSM2-b.txt.gz"
    (Or.inr (by decide)) (by decide) (by decide)

/-! ## C2: identifier sanitization -/

/-- C2 counterexample: the claim says a run of whitespace characters is
replaced by a single underscore, so the present identifier value with two
consecutive spaces would give `a_b`; the code replaces each space character
separately and produces `a__b`. -/
theorem sanitize_run_counterexample :
    identifierFor ["geo_accession", "source_name_ch1"] [some "GSM1", some "a  b"]
        "source_name_ch1" (some "GSM1") = "a__b" ∧
    ("a__b" : String) ≠ "a_b" := by
  exact ⟨by decide, by decide⟩

/-- C2 amended: for every row whose identifier-column value is present, the
identifier equals that value with every space character and every slash
character replaced by one underscore each (character by character: a run of
spaces yields as many underscores, and whitespace other than the space
character is left unchanged). -/
theorem identifier_sanitize_charwise (cols : List String) (cells : List Cell)
    (idcol : String) (geoAcc : Cell) (v : String)
    (h : rowGet cols cells idcol = some (some v)) :
    identifierFor cols cells idcol geoAcc
      = ⟨v.data.map fun ch => if ch = ' ' ∨ ch = '/' then '_' else ch⟩ := by
  simp only [identifierFor, h]
  unfold sanitizeIdentifier pyReplaceChar
  simp only [List.map_map]
  congr 1
  apply List.map_congr_left
  intro ch _
  by_cases h1 : ch = ' ' <;> by_cases h2 : ch = '/' <;>
    simp [h1, h2, Function.comp]

/-- Witness for C2 (amended): a present value `liver tissue` yields the
identifier `liver_tissue`. -/
theorem identifier_sanitize_charwise_witness :
    identifierFor ["geo_accession", "source_name_ch1"]
        [some "GSM1", some "liver tissue"] "source_name_ch1" (some "GSM1")
      = "liver_tissue" := by
  exact (identifier_sanitize_charwise ["geo_accession", "source_name_ch1"]
    [some "GSM1", some "liver tissue"] "source_name_ch1" (some "GSM1")
    "liver tissue" (by decide)).trans (by decide)

/-! ## Association-list (Python dict) lemmas -/

theorem mem_upsert {β : Type} (l : List (String × β)) (k : String) (v : β)
    (p : String × β) (h : p ∈ upsert l k v) : p = (k, v) ∨ p ∈ l := by
  induction l with
  | nil =>
    simp only [upsert, List.mem_singleton] at h
    exact Or.inl h
  | cons q rest ih =>
    by_cases hk : q.1 = k
    · simp only [upsert, hk, if_pos] at h
      rcases List.mem_cons.mp h with h1 | h1
      · exact Or.inl h1
      · exact Or.inr (List.mem_cons_of_mem _ h1)
    · rw [show upsert (q :: rest) k v = q :: upsert rest k v by
        cases q; simp [upsert, hk]] at h
      rcases List.mem_cons.mp h with h1 | h1
      · exact Or.inr (h1 ▸ List.mem_cons_self _ _)
      · rcases ih h1 with h2 | h2
        · exact Or.inl h2
        · exact Or.inr (List.mem_cons_of_mem _ h2)

theorem key_mem_upsert_self {β : Type} (l : List (String × β)) (k : String)
    (v : β) : k ∈ (upsert l k v).map Prod.fst := by
  induction l with
  | nil => simp [upsert]
  | cons q rest ih =>
    by_cases hk : q.1 = k
    · simp [upsert, hk]
    · rw [show upsert (q :: rest) k v = q :: upsert rest k v by
        cases q; simp [upsert, hk]]
      simpa using Or.inr ih

theorem upsert_keys_mono {β : Type} (l : List (String × β)) (k k₁ : String)
    (v : β) (h : k₁ ∈ l.map Prod.fst) : k₁ ∈ (upsert l k v).map Prod.fst := by
  induction l with
  | nil => cases h
  | cons q rest ih =>
    by_cases hk : q.1 = k
    · simp only [upsert, hk, if_pos, List.map_cons, List.mem_cons] at h ⊢
      rcases h with h1 | h1
      · exact Or.inl h1
      · exact Or.inr h1
    · rw [show upsert (q :: rest) k v = q :: upsert rest k v by
        cases q; simp [upsert, hk]]
      simp only [List.map_cons, List.mem_cons] at h ⊢
      rcases h with h1 | h1
      · exact Or.inl h1
      · exact Or.inr (ih h1)

/-! ## Lemmas about the rename fold -/

theorem rename_fold_mem (sourceFiles : List String)
    (copyOk : String → String → Bool) (cols : List String) (idcol : String) :
    ∀ (rows : List (String × List Cell)) (acc : List (String × String))
      (p : String × String),
      p ∈ rows.foldl (fun renamedFiles r =>
        match rowOutcome sourceFiles copyOk cols idcol r.2 with
        | some entry => upsert renamedFiles entry.1 entry.2
        | none => renamedFiles) acc →
      p ∈ acc ∨ ∃ r ∈ rows, rowOutcome sourceFiles copyOk cols idcol r.2 = some p := by
  intro rows
  induction rows with
  | nil => intro acc p h; exact Or.inl h
  | cons r rest ih =>
    intro acc p h
    rw [List.foldl_cons] at h
    cases hr : rowOutcome sourceFiles copyOk cols idcol r.2 with
    | none =>
      rw [hr] at h
      rcases ih acc p h with h1 | ⟨r₂, hr₂, h2⟩
      · exact Or.inl h1
      · exact Or.inr ⟨r₂, List.mem_cons_of_mem _ hr₂, h2⟩
    | some entry =>
      rw [hr] at h
      rcases ih _ p h with h1 | ⟨r₂, hr₂, h2⟩
      · rcases mem_upsert _ _ _ _ h1 with h2 | h2
        · subst h2
          exact Or.inr ⟨r, List.mem_cons_self _ _, by rw [hr]⟩
        · exact Or.inl h2
      · exact Or.inr ⟨r₂, List.mem_cons_of_mem _ hr₂, h2⟩

theorem rename_fold_keys_mono (sourceFiles : List String)
    (copyOk : String → String → Bool) (cols : List String) (idcol : String) :
    ∀ (rows : List (String × List Cell)) (acc : List (String × String))
      (k : String), k ∈ acc.map Prod.fst →
      k ∈ (rows.foldl (fun renamedFiles r =>
        match rowOutcome sourceFiles copyOk cols idcol r.2 with
        | some entry => upsert renamedFiles entry.1 entry.2
        | none => renamedFiles) acc).map Prod.fst := by
  intro rows
  induction rows with
  | nil => intro acc k h; exact h
  | cons r rest ih =>
    intro acc k h
    rw [List.foldl_cons]
    cases hr : rowOutcome sourceFiles copyOk cols idcol r.2 with
    | none => exact ih acc k h
    | some entry => exact ih _ k (upsert_keys_mono _ _ _ _ h)

/-! ## C4: entries only for successful copies; failures do not abort -/

/-- C4: first conjunct: a row records a rename entry only when its original
file exists in the source directory and the copy succeeded. Second
conjunct: a row whose processing records nothing (missing field, missing
source file, failed copy, no URL) leaves the mapping of the remaining rows
exactly as if the row were absent: one row's failure never aborts the batch.
Third and fourth conjuncts: the returned mapping holds exactly the entries
of successfully copied rows — every entry comes from some successful row,
and every successful row's original filename is a key of the mapping. -/
theorem rename_records_successful_copies (sourceFiles : List String)
    (copyOk : String → String → Bool) (df : DataFrame) (idcol : String) :
    (∀ (cols : List String) (cells : List Cell) (o n : String),
      rowOutcome sourceFiles copyOk cols idcol cells = some (o, n) →
      o ∈ sourceFiles ∧ copyOk o n = true) ∧
    (∀ (cols : List String) (rows₁ : List (String × List Cell))
        (r : String × List Cell) (rows₂ : List (String × List Cell)),
      rowOutcome sourceFiles copyOk cols idcol r.2 = none →
      rename_supplementary_files sourceFiles copyOk ⟨cols, rows₁ ++ r :: rows₂⟩ idcol
        = rename_supplementary_files sourceFiles copyOk ⟨cols, rows₁ ++ rows₂⟩ idcol) ∧
    (∀ p ∈ rename_supplementary_files sourceFiles copyOk df idcol,
      ∃ r ∈ df.rows, rowOutcome sourceFiles copyOk df.columns idcol r.2 = some p) ∧
    (∀ r ∈ df.rows, ∀ (o n : String),
      rowOutcome sourceFiles copyOk df.columns idcol r.2 = some (o, n) →
      o ∈ (rename_supplementary_files sourceFiles copyOk df idcol).map Prod.fst) := by
  refine ⟨?_, ?_, ?_, ?_⟩
  · intro cols cells o n hout
    unfold rowOutcome at hout
    cases hgeo : rowGet cols cells "geo_accession" with
    | none => rw [hgeo] at hout; cases hout
    | some geoAcc =>
      rw [hgeo] at hout
      simp only [Option.bind_eq_bind, Option.some_bind] at hout
      cases hurl : findSuppUrl cols cells with
      | none => rw [hurl] at hout; cases hout
      | some url =>
        rw [hurl] at hout
        simp only [Option.some_bind] at hout
        by_cases hempty : url = ""
        · simp [hempty] at hout
        · simp only [hempty, if_false] at hout
          simp at hout
          obtain ⟨hmem, hcp, ho, hn⟩ := hout
          subst ho
          subst hn
          exact ⟨hmem, hcp⟩
  · intro cols rows₁ r rows₂ hnone
    unfold rename_supplementary_files
    simp only [List.foldl_append, List.foldl_cons, hnone]
  · intro p hp
    unfold rename_supplementary_files at hp
    rcases rename_fold_mem sourceFiles copyOk df.columns idcol df.rows [] p hp with
      h | h
    · cases h
    · exact h
  · intro r hr o n hout
    unfold rename_supplementary_files
    rcases List.append_of_mem hr with ⟨rows₁, rows₂, hsplit⟩
    rw [hsplit, List.foldl_append, List.foldl_cons, hout]
    exact rename_fold_keys_mono sourceFiles copyOk df.columns idcol rows₂ _ o
      (key_mem_upsert_self _ _ _)

/-- Witness for C4: the GSM1 scenario row copies successfully and appears in
the mapping, while adding a second row whose file is absent from the source
directory leaves the mapping unchanged. -/
theorem rename_records_successful_copies_witness :
    ("a.txt.gz" : String) ∈ ["a.txt.gz"] ∧ (fun _ _ => true : String → String → Bool)
        "a.txt.gz" "liver_tissue-a.txt.gz" = true ∧
    rename_supplementary_files ["a.txt.gz"] (fun _ _ => true)
        ⟨["geo_accession", "source_name_ch1", "supplementary_file_1"],
         [("GSM1", [some "GSM1", some "liver tissue", some "http://x/a.txt.gz"]),
          ("GSM3", [some "GSM3", some "x", some "http://x/c.txt.gz"])]⟩
        "source_name_ch1"
      = rename_supplementary_files ["a.txt.gz"] (fun _ _ => true)
        ⟨["geo_accession", "source_name_ch1", "supplementary_file_1"],
         [("GSM1", [some "GSM1", some "liver tissue", some "http://x/a.txt.gz"])]⟩
        "source_name_ch1" := by
  obtain ⟨h1, h2, -, -⟩ := rename_records_successful_copies ["a.txt.gz"]
    (fun _ _ => true)
    ⟨["geo_accession", "source_name_ch1", "supplementary_file_1"],
     [("GSM1", [some "GSM1", some "liver tissue", some "http://x/a.txt.gz"])]⟩
    "source_name_ch1"
  obtain ⟨hm, hc⟩ := h1 ["geo_accession", "source_name_ch1", "supplementary_file_1"]
    [some "GSM1", some "liver tissue", some "http://x/a.txt.gz"]
    "a.txt.gz" "liver_tissue-a.txt.gz" (by decide)
  refine ⟨hm, hc, ?_⟩
  exact h2 ["geo_accession", "source_name_ch1", "supplementary_file_1"]
    [("GSM1", [some "GSM1", some "liver tissue", some "http://x/a.txt.gz"])]
    ("GSM3", [some "GSM3", some "x", some "http://x/c.txt.gz"]) [] (by decide)

/-! ## Lemmas about the batch results dict -/

theorem lookup_upsert_self {β : Type} (l : List (String × β)) (k : String)
    (v : β) : (upsert l k v).lookup k = some v := by
  induction l with
  | nil => simp [upsert, List.lookup]
  | cons q rest ih =>
    cases q with
    | mk qk qv =>
      by_cases hk : qk = k
      · simp [upsert, hk, List.lookup]
      · have hb : (k == qk) = false := by
          simp only [beq_eq_false_iff_ne, ne_eq]
          exact fun h => hk h.symm
        simpa [upsert, hk, List.lookup, hb] using ih

theorem lookup_upsert_ne {β : Type} (l : List (String × β)) (k k₁ : String)
    (v : β) (h : k₁ ≠ k) : (upsert l k v).lookup k₁ = l.lookup k₁ := by
  have hbk : (k₁ == k) = false := by
    simp only [beq_eq_false_iff_ne, ne_eq]
    exact h
  induction l with
  | nil => simp [upsert, List.lookup, hbk]
  | cons q rest ih =>
    cases q with
    | mk qk qv =>
      by_cases hk : qk = k
      · subst hk
        simp [upsert, List.lookup, hbk]
      · by_cases hq : k₁ = qk
        · simp [upsert, hk, List.lookup, hq]
        · have hb : (k₁ == qk) = false := by
            simp only [beq_eq_false_iff_ne, ne_eq]
            exact hq
          simpa [upsert, hk, List.lookup, hb] using ih

theorem keys_upsert {β : Type} (l : List (String × β)) (k : String) (v : β) :
    (upsert l k v).map Prod.fst =
      if k ∈ l.map Prod.fst then l.map Prod.fst else l.map Prod.fst ++ [k] := by
  induction l with
  | nil => simp [upsert]
  | cons q rest ih =>
    by_cases hk : q.1 = k
    · simp [upsert, hk]
    · rw [show upsert (q :: rest) k v = q :: upsert rest k v by
        cases q; simp [upsert, hk]]
      have hne : ¬k = q.1 := fun h => hk h.symm
      by_cases hmem : k ∈ rest.map Prod.fst
      · simp [ih, hmem, hne]
      · simp [ih, hmem, hne]

theorem runBatch_keys_mono {α : Type} (pl : Nat → String → Except String α) :
    ∀ (ids : List String) (i : Nat) (acc : List (String × BatchResult α))
      (k : String), k ∈ acc.map Prod.fst →
      k ∈ (runBatch pl i acc ids).map Prod.fst := by
  intro ids
  induction ids with
  | nil => intro i acc k h; exact h
  | cons v vs ih =>
    intro i acc k h
    exact ih (i + 1) _ k (upsert_keys_mono _ _ _ _ h)

theorem mem_runBatch_key {α : Type} (pl : Nat → String → Except String α) :
    ∀ (ids : List String) (i : Nat) (acc : List (String × BatchResult α))
      (gseId : String), gseId ∈ ids →
      gseId ∈ (runBatch pl i acc ids).map Prod.fst := by
  intro ids
  induction ids with
  | nil => intro i acc gseId h; cases h
  | cons v vs ih =>
    intro i acc gseId h
    rcases List.mem_cons.mp h with h1 | h1
    · subst h1
      exact runBatch_keys_mono pl vs (i + 1) _ gseId (key_mem_upsert_self _ _ _)
    · exact ih (i + 1) _ gseId h1

theorem lookup_runBatch {α : Type} (pl : Nat → String → Except String α) :
    ∀ (ids : List String) (i : Nat) (acc : List (String × BatchResult α))
      (gseId : String),
      (runBatch pl i acc ids).lookup gseId =
        match lastOcc ids gseId with
        | some j => some (mkBatchResult (pl (i + j) gseId))
        | none => acc.lookup gseId := by
  intro ids
  induction ids with
  | nil => intro i acc gseId; rfl
  | cons v vs ih =>
    intro i acc gseId
    show (runBatch pl (i + 1) (upsert acc v (mkBatchResult (pl i v))) vs).lookup gseId = _
    rw [ih (i + 1)]
    cases hlo : lastOcc vs gseId with
    | some j =>
      simp only [lastOcc, hlo]
      have : i + 1 + j = i + (j + 1) := by omega
      rw [this]
    | none =>
      simp only [lastOcc, hlo]
      by_cases hv : v = gseId
      · subst hv
        rw [if_pos rfl, lookup_upsert_self]
        simp
      · rw [if_neg hv, lookup_upsert_ne _ _ _ _ (fun h => hv h.symm)]

/-- The keys accumulated by the batch loop: the fold of the results-dict key
set over the processed ids, an existing key staying in place and a new key
appended. -/
def addKeys : List String → List String → List String
  | ks, [] => ks
  | ks, v :: vs => addKeys (if v ∈ ks then ks else ks ++ [v]) vs

theorem keys_runBatch {α : Type} (pl : Nat → String → Except String α) :
    ∀ (ids : List String) (i : Nat) (acc : List (String × BatchResult α)),
      (runBatch pl i acc ids).map Prod.fst = addKeys (acc.map Prod.fst) ids := by
  intro ids
  induction ids with
  | nil => intro i acc; rfl
  | cons v vs ih =>
    intro i acc
    show (runBatch pl (i + 1) (upsert acc v (mkBatchResult (pl i v))) vs).map Prod.fst = _
    rw [ih (i + 1), keys_upsert]
    rfl

theorem firstUniques_nil : firstUniques [] = [] := by
  rw [firstUniques]

theorem firstUniques_cons (v : String) (l : List String) :
    firstUniques (v :: l) = v :: firstUniques (l.filter fun w => w != v) := by
  rw [firstUniques]

theorem addKeys_eq : ∀ (ids ks : List String),
    addKeys ks ids = ks ++ firstUniques (ids.filter fun v => decide (v ∉ ks)) := by
  intro ids
  induction ids with
  | nil => intro ks; simp [addKeys, firstUniques_nil]
  | cons v vs ih =>
    intro ks
    by_cases hv : v ∈ ks
    · show addKeys (if v ∈ ks then ks else ks ++ [v]) vs = _
      rw [if_pos hv, ih ks]
      have hstep : ((v :: vs).filter fun w => decide (w ∉ ks))
          = vs.filter fun w => decide (w ∉ ks) := by
        rw [List.filter_cons]
        simp [hv]
      rw [hstep]
    · show addKeys (if v ∈ ks then ks else ks ++ [v]) vs = _
      rw [if_neg hv, ih (ks ++ [v])]
      have hfil : (vs.filter fun w => decide (w ∉ ks ++ [v]))
          = ((vs.filter fun w => decide (w ∉ ks)).filter fun w => w != v) := by
        rw [List.filter_filter]
        apply List.filter_congr
        intro w _
        by_cases h1 : w ∈ ks <;> by_cases h2 : w = v <;>
          simp [h1, h2, List.mem_append, bne_iff_ne]
      have hfilcons : ((v :: vs).filter fun w => decide (w ∉ ks))
          = v :: (vs.filter fun w => decide (w ∉ ks)) := by
        rw [List.filter_cons]
        simp [hv]
      rw [hfil, List.append_assoc, List.singleton_append]
      congr 1
      rw [hfilcons, firstUniques_cons]

/-- The pipeline oracle of the batch scenario: dataset A succeeds, fetching
dataset B raises NetworkError. -/
def pipelineAB : Nat → String → Except String Unit :=
  fun _ gseId => if gseId = "A" then .ok () else .error "NetworkError"

/-! ## C5: per-dataset failure isolation in batch processing -/

/-- C5: every requested id receives an entry in the batch result map, whatever
the pipeline does on any id (an exception on one dataset never aborts the
processing of the others), and on the scenario with ids A, B where fetching
B raises NetworkError, the result map holds a success entry for A and an
error entry recording the NetworkError description for B, with success
count 1 and failure count 1 derived from the map. -/
theorem batch_failure_isolated :
    (∀ (α : Type) (pl : Nat → String → Except String α) (ids : List String)
        (gseId : String), gseId ∈ ids →
      ∃ res, (gseId, res) ∈ process_multiple_datasets pl ids) ∧
    process_multiple_datasets pipelineAB ["A", "B"]
      = [("A", .success ()), ("B", .error "NetworkError")] ∧
    successCount (process_multiple_datasets pipelineAB ["A", "B"]) = 1 ∧
    failedCount (process_multiple_datasets pipelineAB ["A", "B"]) = 1 := by
  refine ⟨?_, by decide, by decide, by decide⟩
  intro α pl ids gseId h
  have hkey : gseId ∈ (process_multiple_datasets pl ids).map Prod.fst :=
    mem_runBatch_key pl ids 0 [] gseId h
  rcases List.mem_map.mp hkey with ⟨p, hp, hfst⟩
  exact ⟨p.2, by rw [← hfst]; exact hp⟩

/-- Witness for C5: dataset B, whose fetch raises, still has an entry in the
batch result map. -/
theorem batch_failure_isolated_witness :
    ∃ res, ("B", res) ∈ process_multiple_datasets pipelineAB ["A", "B"] := by
  exact batch_failure_isolated.1 Unit pipelineAB ["A", "B"] "B" (by decide)

/-! ## C10: duplicate ids in the batch input -/

/-- A pipeline oracle whose outcome depends on the loop position: the first
processing attempt succeeds, any later attempt raises. It exhibits the
overwrite of a repeated id by its later outcome. -/
def pipelineFlip : Nat → String → Except String Unit :=
  fun i _ => if i = 0 then .ok () else .error "second attempt failed"

/-- C10: for every id list, the batch result map has exactly one entry per
distinct id, keyed in first-occurrence order; a repeated id is processed
again at its later position and the entry it looks up is the outcome of its
last occurrence (the later outcome overwrites the earlier entry); and the
derived success and failure counts sum to the number of distinct ids. -/
theorem batch_duplicate_ids (α : Type) (pl : Nat → String → Except String α)
    (ids : List String) :
    (process_multiple_datasets pl ids).map Prod.fst = firstUniques ids ∧
    (∀ (gseId : String) (j : Nat), lastOcc ids gseId = some j →
      (process_multiple_datasets pl ids).lookup gseId
        = some (mkBatchResult (pl j gseId))) ∧
    successCount (process_multiple_datasets pl ids)
        + failedCount (process_multiple_datasets pl ids)
      = (firstUniques ids).length := by
  have hkeys : (process_multiple_datasets pl ids).map Prod.fst = firstUniques ids := by
    show (runBatch pl 0 [] ids).map Prod.fst = _
    rw [keys_runBatch, addKeys_eq]
    simp
  refine ⟨hkeys, ?_, ?_⟩
  · intro gseId j hlo
    show (runBatch pl 0 [] ids).lookup gseId = _
    rw [lookup_runBatch, hlo]
    simp
  · have hlen : (process_multiple_datasets pl ids).length
        = (firstUniques ids).length := by
      rw [← hkeys, List.length_map]
    have hle := List.length_filter_le
      (fun r => r.2.isSuccess) (process_multiple_datasets pl ids)
    unfold successCount failedCount successCount
    omega

/-- Witness for C10: with input ids A, A and a pipeline whose second attempt
fails, the result map has the single key A, its entry is the outcome of the
second (last) processing attempt, and the derived counts sum to 1, the
number of distinct ids, although 2 ids were requested. -/
theorem batch_duplicate_ids_witness :
    (process_multiple_datasets pipelineFlip ["A", "A"]).map Prod.fst = ["A"] ∧
    (process_multiple_datasets pipelineFlip ["A", "A"]).lookup "A"
      = some (.error "second attempt failed") ∧
    successCount (process_multiple_datasets pipelineFlip ["A", "A"])
        + failedCount (process_multiple_datasets pipelineFlip ["A", "A"]) = 1 ∧
    (["A", "A"] : List String).length = 2 := by
  obtain ⟨h1, h2, h3⟩ := batch_duplicate_ids Unit pipelineFlip ["A", "A"]
  refine ⟨h1.trans (by simp [firstUniques_cons, firstUniques_nil]), ?_,
    h3.trans (by simp [firstUniques_cons, firstUniques_nil]), by decide⟩
  exact (h2 "A" 1 (by decide)).trans (by decide)

/-! ## Lemmas about the value distribution -/

theorem mem_firstUniques : ∀ (l : List String) (a : String),
    a ∈ firstUniques l ↔ a ∈ l := by
  intro l
  induction l using firstUniques.induct with
  | case1 => intro a; rw [firstUniques_nil]
  | case2 v vs ih =>
    intro a
    rw [firstUniques_cons]
    by_cases hav : a = v
    · subst hav
      exact ⟨fun _ => List.mem_cons_self a vs, fun _ => List.mem_cons_self a _⟩
    · simp only [List.mem_cons, ih, List.mem_filter]
      constructor
      · rintro (h | ⟨h, -⟩)
        · exact Or.inl h
        · exact Or.inr h
      · rintro (h | h)
        · exact Or.inl h
        · exact Or.inr ⟨h, by simp [bne_iff_ne, hav]⟩

theorem length_eq_count_add_filter (v : String) : ∀ (vs : List String),
    vs.length = vs.count v + (vs.filter fun w => w != v).length := by
  intro vs
  induction vs with
  | nil => rfl
  | cons w ws ih =>
    by_cases h : w = v
    · subst h
      simp only [List.length_cons, List.count_cons, beq_self_eq_true, if_pos,
        List.filter_cons, bne_self_eq_false, Bool.false_eq_true, if_false]
      omega
    · have hb : (w == v) = false := by
        simp only [beq_eq_false_iff_ne, ne_eq]
        exact h
      have hbn : (w != v) = true := by
        simp [bne_iff_ne, h]
      simp only [List.length_cons, List.count_cons, hb, Bool.false_eq_true,
        if_false, List.filter_cons, hbn, if_pos]
      omega

theorem sum_counts : ∀ (vs : List String),
    ((firstUniques vs).map fun v => vs.count v).sum = vs.length := by
  intro vs
  induction vs using firstUniques.induct with
  | case1 => simp [firstUniques_nil]
  | case2 v vs ih =>
    rw [firstUniques_cons, List.map_cons, List.sum_cons]
    have hcount : ∀ w ∈ firstUniques (vs.filter fun x => x != v),
        (v :: vs).count w = (vs.filter fun x => x != v).count w := by
      intro w hw
      have hmem := (mem_firstUniques _ w).mp hw
      rw [List.mem_filter] at hmem
      have hwv : w ≠ v := by
        have := hmem.2
        rwa [bne_iff_ne] at this
      rw [List.count_cons_of_ne hwv, List.count_filter]
      rwa [bne_iff_ne]
    rw [List.map_congr_left hcount, ih]
    have hc : (v :: vs).count v = vs.count v + 1 := by
      simp [List.count_cons]
    rw [hc, List.length_cons, length_eq_count_add_filter v vs]
    omega

theorem countLe_trans : ∀ (a b c : String × Nat),
    decide (b.2 ≤ a.2) = true → decide (c.2 ≤ b.2) = true →
    decide (c.2 ≤ a.2) = true := by
  intro a b c h1 h2
  simp only [decide_eq_true_eq] at h1 h2 ⊢
  omega

theorem countLe_total : ∀ (a b : String × Nat),
    (decide (b.2 ≤ a.2) || decide (a.2 ≤ b.2)) = true := by
  intro a b
  rcases Nat.le_total a.2 b.2 with h | h <;> simp [h]

/-! ## C9: value distribution of an existing column -/

/-- C9: on an existing column, `get_unique_values` succeeds and the returned
distribution has counts summing exactly to the number of rows with a
present value in that column (absent values contribute nothing, and no
"missing" category appears: every entry is a value present in some row,
counted exactly). Entries are ordered by descending frequency, and within
any frequency tie class the entries appear exactly in first-encountered
(stable) order. -/
theorem value_distribution_spec (df : DataFrame) (column : String)
    (hcol : df.columns.contains column = true) :
    ∃ out, get_unique_values df column = .ok out ∧
      (out.map Prod.snd).sum = (presentValues df column).length ∧
      List.Pairwise (fun a b : String × Nat => b.2 ≤ a.2) out ∧
      (∀ n : Nat, out.filter (fun p => p.2 == n)
          = (countPairs (presentValues df column)).filter (fun p => p.2 == n)) ∧
      (∀ p ∈ out, p.1 ∈ presentValues df column ∧
        p.2 = (presentValues df column).count p.1) := by
  have hok : get_unique_values df column
      = .ok (value_counts (presentValues df column)) := by
    unfold get_unique_values
    rw [if_pos hcol]
  have hperm : (value_counts (presentValues df column)).Perm
      (countPairs (presentValues df column)) := List.mergeSort_perm _ _
  refine ⟨_, hok, ?_, ?_, ?_, ?_⟩
  · rw [(hperm.map Prod.snd).sum_eq]
    unfold countPairs
    rw [List.map_map]
    exact sum_counts (presentValues df column)
  · have hs := List.sorted_mergeSort countLe_trans countLe_total
      (countPairs (presentValues df column))
    exact hs.imp fun h => by simpa using h
  · intro n
    have hmemF : ∀ p ∈ (countPairs (presentValues df column)).filter
        (fun p => p.2 == n), (p.2 == n) = true :=
      fun p hp => (List.mem_filter.mp hp).2
    have hpairF : ((countPairs (presentValues df column)).filter
        (fun p => p.2 == n)).Pairwise
        (fun a b => decide (b.2 ≤ a.2) = true) := by
      apply List.pairwise_of_forall_mem_list
      intro a ha b hb
      have ha2 : a.2 = n := by simpa using hmemF a ha
      have hb2 : b.2 = n := by simpa using hmemF b hb
      simp [ha2, hb2]
    have hsubout : ((countPairs (presentValues df column)).filter
        (fun p => p.2 == n)).Sublist (value_counts (presentValues df column)) :=
      List.sublist_mergeSort countLe_trans countLe_total hpairF
        (List.filter_sublist _)
    have hpermF : ((value_counts (presentValues df column)).filter
        (fun p => p.2 == n)).Perm
        ((countPairs (presentValues df column)).filter (fun p => p.2 == n)) :=
      hperm.filter _
    have hsub2 : ((countPairs (presentValues df column)).filter
        (fun p => p.2 == n)).Sublist
        ((value_counts (presentValues df column)).filter (fun p => p.2 == n)) := by
      have hstep := hsubout.filter (fun p => p.2 == n)
      rwa [List.filter_eq_self.mpr hmemF] at hstep
    exact (hsub2.eq_of_length hpermF.length_eq.symm).symm
  · intro p hp
    have hp2 := hperm.mem_iff.mp hp
    unfold countPairs at hp2
    rcases List.mem_map.mp hp2 with ⟨v, hv, hvp⟩
    subst hvp
    exact ⟨(mem_firstUniques _ v).mp hv, rfl⟩

/-- A three-row table whose column `k` holds two values of `a` and one of
`b`, with no missing values. -/
def dfCounts : DataFrame :=
  ⟨["k"], [("r1", [some "a"]), ("r2", [some "b"]), ("r3", [some "a"])]⟩

/-- Witness for C9: on the three-row table the distribution of column `k`
exists and its counts sum to 3, the number of rows with a present value. -/
theorem value_distribution_spec_witness :
    ∃ out, get_unique_values dfCounts "k" = .ok out ∧
      (out.map Prod.snd).sum = 3 := by
  obtain ⟨out, h1, h2, -, -, -⟩ := value_distribution_spec dfCounts "k" (by decide)
  exact ⟨out, h1, h2.trans (by decide)⟩

end GeoToolkit
